import Mathlib

/-!
Shallow embedding of the settlement-synchronization core of `watcher.go`
(package `main` of the chat-backend repository).

The store is Firestore's `messages` collection, modelled as a list of
documents; each document carries a document id (the unique `s.Ref`) and a
field map.  The Lightning node (lnd) is modelled as an oracle `Env`
supplying the outcomes of `DecodePayReq`, `LookupInvoice`, the
`GetAll` listings and the `Update` writes.  `checkPayments` and
`watchInvoices` are translated statement by statement from the Go source;
`mainRun` models the control flow of `main` after the firebase setup:
`checkPayments()`, then `watchInvoices()`, then the HTTP API is started.
-/

namespace ChatBackend

/-- A Firestore field value, as used by the `messages` documents. -/
inductive FieldVal where
  | str (s : String)
  | boolVal (b : Bool)
  deriving DecidableEq

/-- A Firestore document: its reference (unique id) and its data map,
corresponding to `s.Ref` and `s.Data()` in the Go source. -/
structure Doc where
  id : Nat
  data : List (String × FieldVal)
  deriving DecidableEq

/-- Field lookup in a document's data, `s.Data()[k]`. -/
def getData : List (String × FieldVal) → String → Option FieldVal
  | [], _ => none
  | (k', v) :: rest, k => if k' = k then some v else getData rest k

/-- Field lookup on a document. -/
def getField (d : Doc) (k : String) : Option FieldVal :=
  getData d.data k

/-- Setting one field of a data map, as `firestore.Update{Path: k, Value: v}`
does: replace the field if present, add it otherwise. -/
def setField : List (String × FieldVal) → String → FieldVal → List (String × FieldVal)
  | [], k, v => [(k, v)]
  | (k', v') :: rest, k, v =>
      if k' = k then (k, v) :: rest else (k', v') :: setField rest k v

/-- The effect on one document of the only write the core ever issues:
`Update(ctx, []firestore.Update{{Path: "settled", Value: true}})`. -/
def markDoc (d : Doc) : Doc :=
  ⟨d.id, setField d.data "settled" (FieldVal.boolVal true)⟩

/-- Applying the mark-settled write to the document with reference `i`. -/
def setSettled (st : List Doc) (i : Nat) : List Doc :=
  st.map (fun d => if d.id = i then markDoc d else d)

/-- The `Where("settled", "==", false)` filter of `checkPayments`. -/
def isUnsettled (d : Doc) : Bool :=
  match getField d "settled" with
  | some (FieldVal.boolVal false) => true
  | _ => false

/-- The `Where("invoice", "==", pr)` filter of `watchInvoices`. -/
def matchesInvoice (pr : String) (d : Doc) : Bool :=
  match getField d "invoice" with
  | some (FieldVal.str s) => s == pr
  | _ => false

/-- Oracle for the external world: lnd RPC outcomes and store failures.
`listFails` is the error, if any, of the scanner's initial `GetAll`;
`updateFails i` is the error, if any, of the mark-settled write on the
document with reference `i`; `findFails pr` tells whether the consumer's
`GetAll` for payment request `pr` fails. -/
structure Env where
  listFails : Option String
  decodePayReq : String → Except String String
  lookupInvoice : String → Except String Bool
  updateFails : Nat → Option String
  findFails : String → Bool

/-- One observable console/log line or stream action of the core. -/
inductive LogEvent where
  | fatalGetDocs (e : String)
  | failedDecode
  | failedFind (e : String)
  | updateFailed (e : String)
  | updated (invoice : String)
  | received (paymentRequest : String)
  | findFirebaseFailed
  | closeSend
  | printErr (e : String)
  deriving DecidableEq

/-- How a `checkPayments` run ends: normally, by `log.Fatalln` (which calls
`os.Exit(1)`), or by a runtime panic of the unchecked type assertion. -/
inductive Outcome where
  | ok
  | exited
  | panicked
  deriving DecidableEq

/-- Result of a `checkPayments` run: final store, emitted log lines, and
how the run ended.  The Go function itself has no result parameters. -/
structure CheckResult where
  store : List Doc
  trace : List LogEvent
  outcome : Outcome
  deriving DecidableEq

/-- The body of the `for _, s := range snapshot` loop of `checkPayments`
for one snapshot document `s`: returns the new store, the log lines of this
iteration, and whether the unchecked type assertion
`s.Data()["invoice"].(string)` panicked. -/
def scanStep (env : Env) (st : List Doc) (s : Doc) :
    List Doc × List LogEvent × Bool :=
  match getField s "invoice" with
  | some (FieldVal.str invoice) =>
      match env.decodePayReq invoice with
      | Except.error _ => (st, [LogEvent.failedDecode], false)
      | Except.ok hash =>
          match env.lookupInvoice hash with
          | Except.error e => (st, [LogEvent.failedFind e], false)
          | Except.ok settledLn =>
              if settledLn then
                match env.updateFails s.id with
                | some e => (st, [LogEvent.updateFailed e], false)
                | none => (setSettled st s.id, [LogEvent.updated invoice], false)
              else (st, [], false)
  | _ => (st, [], true)

/-- The `for _, s := range snapshot` loop of `checkPayments`: a panic stops
the loop (and, uncaught, the process). -/
def scanLoop (env : Env) (st : List Doc) : List Doc → CheckResult
  | [] => ⟨st, [], Outcome.ok⟩
  | s :: rest =>
      match scanStep env st s with
      | (st', t, true) => ⟨st', t, Outcome.panicked⟩
      | (st', t, false) =>
          let r := scanLoop env st' rest
          ⟨r.store, t ++ r.trace, r.outcome⟩

/-- Function `checkPayments` from `watcher.go`: list the unsettled documents; on a
listing error `log.Fatalln` exits the process (the `return` after it is
unreachable); otherwise reconcile each snapshot document against lnd. -/
def checkPayments (env : Env) (store : List Doc) : CheckResult :=
  match env.listFails with
  | some e => ⟨store, [LogEvent.fatalGetDocs e], Outcome.exited⟩
  | none => scanLoop env store (store.filter isUnsettled)

/-- The value `checkPayments` returns to its caller: the Go declaration is
`func checkPayments()`, with no result parameters. -/
def checkPaymentsGoReturn (env : Env) (store : List Doc) : Unit :=
  let _ := checkPayments env store
  ()

/-- Number of successful mark-settled updates a scanner run performed,
observable as its `log.Println("Updated ", invoice)` lines. -/
def updatedCount (r : CheckResult) : Nat :=
  (r.trace.filter (fun e =>
    match e with
    | LogEvent.updated _ => true
    | _ => false)).length

/-- One outcome of `sub.Recv()` on the invoice subscription stream:
an invoice event (payment request and settled flag), end-of-stream
(`io.EOF`), or another receive error. -/
inductive RecvResult where
  | ev (paymentRequest : String) (settled : Bool)
  | eof
  | errRecv (e : String)
  deriving DecidableEq

/-- The `for _, s := range snapshot` update loop of `watchInvoices`: apply
the mark-settled write to each queried document, discarding the result and
error of every `s.Ref.Update` call. -/
def applyUpdates (env : Env) (ms : List Doc) (st : List Doc) : List Doc :=
  ms.foldl (fun acc m =>
    match env.updateFails m.id with
    | some _ => acc
    | none => setSettled acc m.id) st

/-- The receive loop of `watchInvoices`, over the successive outcomes of
`sub.Recv()`.  On `io.EOF` the code calls `sub.CloseSend()` and then still
runs the generic error branch, printing the error and returning.  On a
settled event it queries `Where("invoice", "==", pr).Limit(1)` and updates
each returned document, discarding the update's result and error. -/
def consumeLoop (env : Env) (st : List Doc) : List RecvResult → List Doc × List LogEvent
  | [] => (st, [])
  | RecvResult.eof :: _ => (st, [LogEvent.closeSend, LogEvent.printErr "EOF"])
  | RecvResult.errRecv e :: _ => (st, [LogEvent.printErr e])
  | RecvResult.ev pr sett :: rest =>
      if sett then
        if env.findFails pr then
          let r := consumeLoop env st rest
          (r.1, LogEvent.received pr :: LogEvent.findFirebaseFailed :: r.2)
        else
          let st' := applyUpdates env ((st.filter (matchesInvoice pr)).take 1) st
          let r := consumeLoop env st' rest
          (r.1, LogEvent.received pr :: r.2)
      else consumeLoop env st rest

/-- Function `watchInvoices` from `watcher.go`: open the invoice subscription (on
failure print the error and return), then run the receive loop. -/
def watchInvoices (env : Env) (store : List Doc)
    (sub : Except String (List RecvResult)) : List Doc × List LogEvent :=
  match sub with
  | Except.error e => (store, [LogEvent.printErr e])
  | Except.ok evs => consumeLoop env store evs

/-- Observable events of `main` after the firebase setup. -/
inductive MainEvent where
  | log (e : LogEvent)
  | consumerStart
  | consumerDone
  | serveHTTP
  deriving DecidableEq

/-- How the modelled part of `main` ends. -/
inductive MainOutcome where
  | exitedFatal
  | panicked
  | serving
  deriving DecidableEq

/-- Result of running `main` past the firebase setup. -/
structure MainResult where
  store : List Doc
  trace : List MainEvent
  outcome : MainOutcome
  deriving DecidableEq

/-- The control flow of `main` after the firebase setup, translated from
the source: `checkPayments()` runs first (a `log.Fatalln` or a panic in it
ends the process); then `watchInvoices()` runs to completion on the main
control flow; only after it returns does the HTTP API start serving. -/
def mainRun (env : Env) (store : List Doc)
    (sub : Except String (List RecvResult)) : MainResult :=
  let r := checkPayments env store
  match r.outcome with
  | Outcome.exited => ⟨r.store, r.trace.map MainEvent.log, MainOutcome.exitedFatal⟩
  | Outcome.panicked => ⟨r.store, r.trace.map MainEvent.log, MainOutcome.panicked⟩
  | Outcome.ok =>
      ⟨(watchInvoices env r.store sub).1,
       r.trace.map MainEvent.log
         ++ MainEvent.consumerStart
            :: (watchInvoices env r.store sub).2.map MainEvent.log
         ++ [MainEvent.consumerDone, MainEvent.serveHTTP],
       MainOutcome.serving⟩

/-- One operation of the two update paths, with the external-world oracle
it runs against. -/
inductive Op where
  | scan (env : Env)
  | consume (env : Env) (sub : Except String (List RecvResult))

/-- The store after one operation. -/
def applyOp (st : List Doc) : Op → List Doc
  | Op.scan env => (checkPayments env st).store
  | Op.consume env sub => (watchInvoices env st sub).1

/-- The store after a sequence of operations of the two update paths. -/
def runOps (st : List Doc) : List Op → List Doc
  | [] => st
  | op :: rest => runOps (applyOp st op) rest

/-- Document references are pairwise distinct (Firestore guarantees this
for the documents of one collection). -/
def NodupIds (st : List Doc) : Prop :=
  (st.map Doc.id).Nodup

/-- The ledger confirmed invoice `inv` settled to a scanner run against
`env`: the payment request decodes and `LookupInvoice` reports settled. -/
def scanReported (env : Env) (inv : String) : Prop :=
  ∃ h, env.decodePayReq inv = Except.ok h ∧ env.lookupInvoice h = Except.ok true

/-- The ledger reported invoice `inv` settled on the subscription stream. -/
def streamReported (sub : Except String (List RecvResult)) (inv : String) : Prop :=
  ∃ evs, sub = Except.ok evs ∧ RecvResult.ev inv true ∈ evs

/-- The ledger reported invoice `inv` settled to the given operation. -/
def opReported : Op → String → Prop
  | Op.scan env, inv => scanReported env inv
  | Op.consume _ sub, inv => streamReported sub inv

/-- The ledger reported invoice `inv` settled to some operation of the
sequence. -/
def opsReported (ops : List Op) (inv : String) : Prop :=
  ∃ op ∈ ops, opReported op inv

/-- How a document may evolve under the core's update paths: it is either
untouched, or it received the mark-settled write and the ledger reported
its invoice settled (witnessed by `R`). -/
def EvolvesTo (R : String → Prop) (d d' : Doc) : Prop :=
  d' = d ∨ (d' = markDoc d ∧
    ∃ inv, getField d "invoice" = some (FieldVal.str inv) ∧ R inv)

/-- Pointwise evolution of a store: every document of `st0` is still at its
position in `st`, evolved as `EvolvesTo`. -/
def PointwiseEvolves (R : String → Prop) (st0 st : List Doc) : Prop :=
  ∀ i d, st0.get? i = some d → ∃ d', st.get? i = some d' ∧ EvolvesTo R d d'

/-- A per-record failure of the scanner on document `d`: the payment
request fails to decode, or the ledger lookup errors, or the mark-settled
write errors.  (The document does carry a string `invoice` field, so the
type assertion itself succeeds.) -/
def perRecordFailure (env : Env) (d : Doc) : Prop :=
  ∃ inv, getField d "invoice" = some (FieldVal.str inv) ∧
    ((∃ e, env.decodePayReq inv = Except.error e) ∨
     (∃ ph e, env.decodePayReq inv = Except.ok ph ∧
        env.lookupInvoice ph = Except.error e) ∨
     (∃ ph e, env.decodePayReq inv = Except.ok ph ∧
        env.lookupInvoice ph = Except.ok true ∧ env.updateFails d.id = some e))

/-- A well-behaved external world: every RPC succeeds, the one invoice of
the concrete scenarios decodes to hash `hashA` and is reported settled. -/
def envW : Env :=
  { listFails := none
    decodePayReq := fun _ => Except.ok "hashA"
    lookupInvoice := fun _ => Except.ok true
    findFails := fun _ => false
    updateFails := fun _ => none }

/-- External world where decoding the payment request `pr1` fails. -/
def envDecodeFails : Env :=
  { listFails := none
    decodePayReq := fun r =>
      if r = "pr1" then Except.error "checksum failed" else Except.ok "hashA"
    lookupInvoice := fun _ => Except.ok true
    findFails := fun _ => false
    updateFails := fun _ => none }

/-- External world where `LookupInvoice` cannot find the invoice of
payment request `pr1` (hash `hashA`). -/
def envNotFound : Env :=
  { listFails := none
    decodePayReq := fun _ => Except.ok "hashA"
    lookupInvoice := fun h =>
      if h = "hashA" then Except.error "unable to locate invoice" else Except.ok true
    findFails := fun _ => false
    updateFails := fun _ => none }

/-- External world where the mark-settled write on document 1 fails. -/
def envUpdateFails : Env :=
  { listFails := none
    decodePayReq := fun _ => Except.ok "hashA"
    lookupInvoice := fun _ => Except.ok true
    findFails := fun _ => false
    updateFails := fun i => if i = 1 then some "unavailable" else none }

/-- External world whose initial store listing fails. -/
def envFail : Env :=
  { listFails := some "deadline exceeded"
    decodePayReq := fun _ => Except.ok "hashA"
    lookupInvoice := fun _ => Except.ok true
    findFails := fun _ => false
    updateFails := fun _ => none }

/-- An unsettled message document for payment request `pr1`. -/
def docW : Doc :=
  ⟨1, [("invoice", FieldVal.str "pr1"), ("settled", FieldVal.boolVal false)]⟩

/-- A second unsettled message document carrying the same payment request
`pr1` (the store does not enforce uniqueness of the field). -/
def docB : Doc :=
  ⟨2, [("invoice", FieldVal.str "pr1"), ("settled", FieldVal.boolVal false)]⟩

/-- An unsettled message document with no `invoice` field at all. -/
def docNoInv : Doc :=
  ⟨3, [("settled", FieldVal.boolVal false)]⟩

theorem setSettled_get? (st : List Doc) (j i : Nat) :
    (setSettled st j).get? i
      = (st.get? i).map (fun d => if d.id = j then markDoc d else d) := by
  simp [setSettled, List.get?_map]

theorem setSettled_get?_ne {st : List Doc} {i : Nat} {dd : Doc} {j : Nat}
    (h : st.get? i = some dd) (hne : dd.id ≠ j) :
    (setSettled st j).get? i = some dd := by
  rw [setSettled_get?, h]
  simp [hne]

theorem take_one_of_head? {α : Type} {l : List α} {a : α} (h : l.head? = some a) :
    l.take 1 = [a] := by
  cases l with
  | nil => simp at h
  | cons x xs =>
      simp at h
      simp [h]

theorem scanLoop_cons (env : Env) (st : List Doc) (s : Doc) (rest : List Doc) :
    scanLoop env st (s :: rest) =
      match scanStep env st s with
      | (st', t, true) => ⟨st', t, Outcome.panicked⟩
      | (st', t, false) =>
          ⟨(scanLoop env st' rest).store, t ++ (scanLoop env st' rest).trace,
           (scanLoop env st' rest).outcome⟩ := rfl

theorem scanStep_store_cases (env : Env) (st : List Doc) (s : Doc) :
    (scanStep env st s).1 = st ∨ (scanStep env st s).1 = setSettled st s.id := by
  unfold scanStep
  repeat' split
  all_goals simp

theorem scanLoop_frame (env : Env) (docs : List Doc) :
    ∀ (st : List Doc) (i : Nat) (dd : Doc), st.get? i = some dd →
      (∀ s ∈ docs, s.id ≠ dd.id) →
      (scanLoop env st docs).store.get? i = some dd := by
  induction docs with
  | nil =>
      intro st i dd h _
      simpa [scanLoop] using h
  | cons s rest ih =>
      intro st i dd h hid
      have hs : s.id ≠ dd.id := hid s (List.mem_cons_self s rest)
      have hrest : ∀ x ∈ rest, x.id ≠ dd.id := fun x hx => hid x (List.mem_cons_of_mem s hx)
      have hpres : (scanStep env st s).1.get? i = some dd := by
        rcases scanStep_store_cases env st s with h1 | h1 <;> rw [h1]
        · exact h
        · exact setSettled_get?_ne h (fun hdd => hs hdd.symm)
      rw [scanLoop_cons]
      rcases hstep : scanStep env st s with ⟨st', t, b⟩
      rw [hstep] at hpres
      cases b
      · simpa using ih st' i dd hpres hrest
      · simpa using hpres

theorem serveHTTP_not_mem_log_map (l : List LogEvent) :
    MainEvent.serveHTTP ∉ l.map MainEvent.log := by
  simp

theorem consumerDone_not_mem_log_map (l : List LogEvent) :
    MainEvent.consumerDone ∉ l.map MainEvent.log := by
  simp

/-- C2: when the scanner's initial listing of unsettled records fails, the
code calls `log.Fatalln`, which exits the process; the `return` after it is
unreachable, so execution never reaches `watchInvoices` and the HTTP front
end never starts.  This refutes the claim that the failure is non-fatal
for the process and that the stream consumer still runs. -/
theorem c2_listing_failure_exits_process :
    (mainRun envFail [docW] (Except.ok [RecvResult.ev "pr1" true])).outcome
        = MainOutcome.exitedFatal ∧
    MainEvent.consumerStart
        ∉ (mainRun envFail [docW] (Except.ok [RecvResult.ev "pr1" true])).trace ∧
    MainEvent.serveHTTP
        ∉ (mainRun envFail [docW] (Except.ok [RecvResult.ev "pr1" true])).trace ∧
    (mainRun envFail [docW] (Except.ok [RecvResult.ev "pr1" true])).trace
        = [MainEvent.log (LogEvent.fatalGetDocs "deadline exceeded")] := by
  decide

/-- C3, counterexample: with two store documents both carrying payment
request `pr1`, the consumer's `Limit(1)` query updates only the first; the
second matching document keeps `settled = false`, so not all `n` matching
records are updated. -/
theorem c3_counterexample_second_match_not_updated :
    (consumeLoop envW [docW, docB] [RecvResult.ev "pr1" true]).1.get? 1 = some docB ∧
    matchesInvoice "pr1" docB = true ∧
    getField docB "settled" = some (FieldVal.boolVal false) ∧
    ¬ (∀ d' ∈ (consumeLoop envW [docW, docB] [RecvResult.ev "pr1" true]).1,
        matchesInvoice "pr1" d' = true →
          getField d' "settled" = some (FieldVal.boolVal true)) := by
  decide

/-- C8, counterexample: on end-of-stream the consumer calls
`sub.CloseSend()` but then still runs the generic error branch, printing
the receive error (`io.EOF`) exactly as the failure path does, before
returning — so the termination is reported through the error print. -/
theorem c8_counterexample_eof_reported_as_error :
    LogEvent.printErr "EOF" ∈ (consumeLoop envW [docW] [RecvResult.eof]).2 ∧
    (consumeLoop envW [docW] [RecvResult.eof]).2
        = [LogEvent.closeSend, LogEvent.printErr "EOF"] ∧
    (consumeLoop envW [docW] [RecvResult.errRecv "EOF"]).2
        = [LogEvent.printErr "EOF"] := by
  decide

/-- C8, amended: on end-of-stream the consumer closes the send side,
terminates the loop without touching the store, and ignores any later
stream content — but it also prints the end-of-stream error through the
same `fmt.Println(err)` used for receive failures, so its trace is the
failure-path trace preceded by the close of the send side. -/
theorem c8_amended_eof_close_send_then_error_print (env : Env) (st : List Doc)
    (rest : List RecvResult) :
    consumeLoop env st (RecvResult.eof :: rest)
        = (st, [LogEvent.closeSend, LogEvent.printErr "EOF"]) ∧
    (consumeLoop env st (RecvResult.eof :: rest)).2
        = LogEvent.closeSend :: (consumeLoop env st (RecvResult.errRecv "EOF" :: rest)).2 := by
  exact ⟨rfl, rfl⟩

/-- C6: a per-record failure in the scanner — decode failure, ledger
lookup error, or store update error — only skips that record: the pass
produces the same final store and outcome as if the record were absent,
contributing exactly one extra log line, so every remaining record is
still processed. -/
theorem c6_per_record_failure_skips_only_that_record (env : Env) (st : List Doc)
    (d : Doc) (rest : List Doc) (hf : perRecordFailure env d) :
    (scanLoop env st (d :: rest)).store = (scanLoop env st rest).store ∧
    (scanLoop env st (d :: rest)).outcome = (scanLoop env st rest).outcome ∧
    ∃ e : LogEvent,
      (scanLoop env st (d :: rest)).trace = e :: (scanLoop env st rest).trace := by
  obtain ⟨inv, hinv, hcase⟩ := hf
  rcases hcase with ⟨e, hdec⟩ | ⟨ph, e, hdec, hlook⟩ | ⟨ph, e, hdec, hlook, hup⟩
  · have hstep : scanStep env st d = (st, [LogEvent.failedDecode], false) := by
      simp [scanStep, hinv, hdec]
    rw [scanLoop_cons, hstep]
    exact ⟨rfl, rfl, LogEvent.failedDecode, rfl⟩
  · have hstep : scanStep env st d = (st, [LogEvent.failedFind e], false) := by
      simp [scanStep, hinv, hdec, hlook]
    rw [scanLoop_cons, hstep]
    exact ⟨rfl, rfl, LogEvent.failedFind e, rfl⟩
  · have hstep : scanStep env st d = (st, [LogEvent.updateFailed e], false) := by
      simp [scanStep, hinv, hdec, hlook, hup]
    rw [scanLoop_cons, hstep]
    exact ⟨rfl, rfl, LogEvent.updateFailed e, rfl⟩

/-- C6 witness: a concrete pass in which the first record's payment
request fails to decode and the second record is still processed. -/
theorem c6_witness :
    (scanLoop envDecodeFails [docW, docB] [docW, docB]).store
        = (scanLoop envDecodeFails [docW, docB] [docB]).store ∧
    (scanLoop envDecodeFails [docW, docB] [docW, docB]).outcome
        = (scanLoop envDecodeFails [docW, docB] [docB]).outcome ∧
    ∃ e : LogEvent,
      (scanLoop envDecodeFails [docW, docB] [docW, docB]).trace
          = e :: (scanLoop envDecodeFails [docW, docB] [docB]).trace :=
  c6_per_record_failure_skips_only_that_record envDecodeFails [docW, docB] docW [docB]
    ⟨"pr1", rfl, Or.inl ⟨"checksum failed", rfl⟩⟩

/-- C7: when the ledger's `LookupInvoice` reports an error (in particular
"not found") for a scanned record, the scanner performs no store write at
all for that record — the store is handed unchanged to the rest of the
scan, the record itself is untouched in the final store, and the remaining
records are processed exactly as before. -/
theorem c7_not_found_leaves_record_unchanged (env : Env) (st : List Doc)
    (d : Doc) (rest : List Doc) (inv ph e : String) (i : Nat)
    (hinv : getField d "invoice" = some (FieldVal.str inv))
    (hdec : env.decodePayReq inv = Except.ok ph)
    (hlook : env.lookupInvoice ph = Except.error e)
    (hi : st.get? i = some d)
    (hrest : ∀ s ∈ rest, s.id ≠ d.id) :
    (scanLoop env st (d :: rest)).store.get? i = some d ∧
    (scanLoop env st (d :: rest)).store = (scanLoop env st rest).store ∧
    (scanLoop env st (d :: rest)).trace
        = LogEvent.failedFind e :: (scanLoop env st rest).trace ∧
    (scanLoop env st (d :: rest)).outcome = (scanLoop env st rest).outcome := by
  have hstep : scanStep env st d = (st, [LogEvent.failedFind e], false) := by
    simp [scanStep, hinv, hdec, hlook]
  rw [scanLoop_cons, hstep]
  exact ⟨scanLoop_frame env rest st i d hi hrest, rfl, rfl, rfl⟩

/-- C7 witness: a concrete scan where the first record's invoice is not
found on the ledger and the second record is still scanned. -/
theorem c7_witness :
    (scanLoop envNotFound [docW, docB] [docW, docB]).store.get? 0 = some docW ∧
    (scanLoop envNotFound [docW, docB] [docW, docB]).store
        = (scanLoop envNotFound [docW, docB] [docB]).store ∧
    (scanLoop envNotFound [docW, docB] [docW, docB]).trace
        = LogEvent.failedFind "unable to locate invoice"
            :: (scanLoop envNotFound [docW, docB] [docB]).trace ∧
    (scanLoop envNotFound [docW, docB] [docW, docB]).outcome
        = (scanLoop envNotFound [docW, docB] [docB]).outcome :=
  c7_not_found_leaves_record_unchanged envNotFound [docW, docB] docW [docB]
    "pr1" "hashA" "unable to locate invoice" 0 rfl rfl rfl rfl
    (by intro s hs; simp at hs; simp [hs, docB, docW])

/-- C9: the unchecked type assertion `s.Data()["invoice"].(string)` —
when an unsettled record's `invoice` field is missing or not a string,
the scanner panics immediately: the whole pass aborts with no store write
and no log line, no later record is processed, and the uncaught panic ends
the process, so neither the stream consumer nor the HTTP front end runs. -/
theorem c9_missing_invoice_field_panics (env : Env) (store : List Doc)
    (d : Doc) (rest : List Doc) (sub : Except String (List RecvResult))
    (hl : env.listFails = none)
    (hinv : ∀ s, getField d "invoice" ≠ some (FieldVal.str s))
    (hsnap : store.filter isUnsettled = d :: rest) :
    checkPayments env store = ⟨store, [], Outcome.panicked⟩ ∧
    (mainRun env store sub).outcome = MainOutcome.panicked ∧
    (mainRun env store sub).trace = [] ∧
    (mainRun env store sub).store = store := by
  have hstep : scanStep env store d = (store, [], true) := by
    unfold scanStep
    cases hf : getField d "invoice" with
    | none => rfl
    | some fv =>
        cases fv with
        | str s => exact absurd hf (hinv s)
        | boolVal b => rfl
  have hcp : checkPayments env store = ⟨store, [], Outcome.panicked⟩ := by
    unfold checkPayments
    rw [hl, hsnap, scanLoop_cons, hstep]
  refine ⟨hcp, ?_, ?_, ?_⟩ <;> simp [mainRun, hcp]

/-- C9 witness: a store whose only unsettled record has no `invoice`
field; the pass panics and the process dies before the consumer starts. -/
theorem c9_witness :
    checkPayments envW [docNoInv] = ⟨[docNoInv], [], Outcome.panicked⟩ ∧
    (mainRun envW [docNoInv] (Except.ok [])).outcome = MainOutcome.panicked ∧
    (mainRun envW [docNoInv] (Except.ok [])).trace = [] ∧
    (mainRun envW [docNoInv] (Except.ok [])).store = [docNoInv] :=
  c9_missing_invoice_field_panics envW [docNoInv] docNoInv [] (Except.ok [])
    rfl
    (by
      intro s h
      rw [show getField docNoInv "invoice" = none from rfl] at h
      exact Option.noConfusion h)
    rfl

/-- C10: when the mark-settled write issued by the stream consumer fails,
the result and error of `s.Ref.Update` are discarded: the store is left
unchanged, no log line beyond the "Received" print is emitted, and the
consumer simply proceeds to the next event — the settlement write is
silently lost. -/
theorem c10_consumer_discards_update_error (env : Env) (st : List Doc)
    (pr : String) (rest : List RecvResult) (m : Doc) (e : String)
    (hff : env.findFails pr = false)
    (hm : (st.filter (matchesInvoice pr)).head? = some m)
    (hup : env.updateFails m.id = some e) :
    (consumeLoop env st (RecvResult.ev pr true :: rest)).1
        = (consumeLoop env st rest).1 ∧
    (consumeLoop env st (RecvResult.ev pr true :: rest)).2
        = LogEvent.received pr :: (consumeLoop env st rest).2 := by
  have htake : (st.filter (matchesInvoice pr)).take 1 = [m] := take_one_of_head? hm
  constructor <;> simp [consumeLoop, applyUpdates, hff, htake, hup]

/-- C10 witness: a settled event for `pr1` whose store write fails is
silently dropped; the store still holds the unsettled record afterwards. -/
theorem c10_witness :
    (consumeLoop envUpdateFails [docW] [RecvResult.ev "pr1" true]).1
        = (consumeLoop envUpdateFails [docW] []).1 ∧
    (consumeLoop envUpdateFails [docW] [RecvResult.ev "pr1" true]).2
        = LogEvent.received "pr1" :: (consumeLoop envUpdateFails [docW] []).2 :=
  c10_consumer_discards_update_error envUpdateFails [docW] "pr1" [] docW
    "unavailable" rfl rfl rfl

/-- C3, amended: on a settled-invoice event the consumer queries the store
for records whose `invoice` field equals the event's payment request with
`Limit(1)`: when at least one record matches and its update succeeds, the
first matching record (in store order) is marked settled and every record
with a different reference — matching or not — is left unchanged; with no
match nothing is written. -/
theorem c3_amended_consumer_updates_first_match_only (env : Env) (st : List Doc)
    (pr : String) (m : Doc)
    (hff : env.findFails pr = false)
    (hm : (st.filter (matchesInvoice pr)).head? = some m)
    (hup : env.updateFails m.id = none) :
    (∃ i, st.get? i = some m ∧
        (consumeLoop env st [RecvResult.ev pr true]).1.get? i = some (markDoc m)) ∧
    ∀ j d, st.get? j = some d → d.id ≠ m.id →
        (consumeLoop env st [RecvResult.ev pr true]).1.get? j = some d := by
  have htake : (st.filter (matchesInvoice pr)).take 1 = [m] := take_one_of_head? hm
  have hres : (consumeLoop env st [RecvResult.ev pr true]).1 = setSettled st m.id := by
    simp [consumeLoop, applyUpdates, hff, htake, hup]
  have hmemf : m ∈ st.filter (matchesInvoice pr) := by
    cases hfl : st.filter (matchesInvoice pr) with
    | nil => rw [hfl] at hm; simp at hm
    | cons x xs =>
        rw [hfl] at hm
        simp at hm
        rw [hm]
        exact List.mem_cons_self m xs
  constructor
  · obtain ⟨i, hi⟩ := List.get?_of_mem (List.mem_of_mem_filter hmemf)
    refine ⟨i, hi, ?_⟩
    rw [hres, setSettled_get?, hi]
    simp
  · intro j d hj hne
    rw [hres]
    exact setSettled_get?_ne hj hne

/-- C3 amended witness: with two records both matching `pr1`, the first is
marked settled and the second (different reference) is untouched. -/
theorem c3_witness :
    (∃ i, [docW, docB].get? i = some docW ∧
        (consumeLoop envW [docW, docB] [RecvResult.ev "pr1" true]).1.get? i
          = some (markDoc docW)) ∧
    ∀ j d, [docW, docB].get? j = some d → d.id ≠ docW.id →
        (consumeLoop envW [docW, docB] [RecvResult.ev "pr1" true]).1.get? j = some d :=
  c3_amended_consumer_updates_first_match_only envW [docW, docB] "pr1" docW
    rfl rfl rfl

/-- C4, counterexample: `checkPayments` is declared `func checkPayments()`
— it returns no values, so the call cannot report `updatedCount` or an
error to its caller.  Concretely, a pass performing one successful update
and a pass performing none hand the caller the very same (empty) return
value; the count of successful updates is observable only in the log. -/
theorem c4_counterexample_no_returned_count :
    updatedCount (checkPayments envW [docW]) = 1 ∧
    updatedCount (checkPayments envW []) = 0 ∧
    checkPaymentsGoReturn envW [docW] = checkPaymentsGoReturn envW [] := by
  decide

/-- C4, amended: `checkPayments` returns no values; successful updates are
reported only as `log.Println("Updated ", invoice)` lines and per-record
errors only as log lines when they occur.  In a pass where the store holds
exactly one record, its invoice is settled on the ledger and its update
succeeds, exactly one "Updated" line is logged, the record is marked
settled, and the (empty) Go return value is indistinguishable from that of
any other run. -/
theorem c4_amended_count_reported_only_in_log (env : Env) (d : Doc)
    (inv ph : String)
    (hl : env.listFails = none)
    (hinv : getField d "invoice" = some (FieldVal.str inv))
    (hun : getField d "settled" = some (FieldVal.boolVal false))
    (hdec : env.decodePayReq inv = Except.ok ph)
    (hlook : env.lookupInvoice ph = Except.ok true)
    (hup : env.updateFails d.id = none) :
    updatedCount (checkPayments env [d]) = 1 ∧
    (checkPayments env [d]).store = [markDoc d] ∧
    (checkPayments env [d]).trace = [LogEvent.updated inv] ∧
    ∀ env2 st2, checkPaymentsGoReturn env [d] = checkPaymentsGoReturn env2 st2 := by
  have hunb : isUnsettled d = true := by simp [isUnsettled, hun]
  have hfilter : [d].filter isUnsettled = [d] := by simp [hunb]
  have hstep : scanStep env [d] d
      = (setSettled [d] d.id, [LogEvent.updated inv], false) := by
    simp [scanStep, hinv, hdec, hlook, hup]
  have hset : setSettled [d] d.id = [markDoc d] := by simp [setSettled]
  have hcp : checkPayments env [d]
      = ⟨[markDoc d], [LogEvent.updated inv], Outcome.ok⟩ := by
    unfold checkPayments
    rw [hl, hfilter, scanLoop_cons, hstep, hset]
    rfl
  rw [hcp]
  exact ⟨rfl, rfl, rfl, fun _ _ => rfl⟩

/-- C4 amended witness: the end-to-end scenario of the spec — one record
for `pr1`, ledger settled, update succeeds — logs exactly one update. -/
theorem c4_witness :
    updatedCount (checkPayments envW [docW]) = 1 ∧
    (checkPayments envW [docW]).store = [markDoc docW] ∧
    (checkPayments envW [docW]).trace = [LogEvent.updated "pr1"] ∧
    ∀ env2 st2, checkPaymentsGoReturn envW [docW] = checkPaymentsGoReturn env2 st2 :=
  c4_amended_count_reported_only_in_log envW docW "pr1" "hashA"
    rfl rfl rfl rfl rfl rfl

/-- C5: `main` calls `watchInvoices()` synchronously, on the same control
flow that later sets up the HTTP API — the consumer is not a background
task.  For every input, the front end's serve event occurs strictly after
the consumer has terminated (and never at all when the scanner exits or
panics), so the front end never serves requests while the consumer's
receive loop is running. -/
theorem c5_front_end_serves_only_after_consumer_done (env : Env)
    (store : List Doc) (sub : Except String (List RecvResult)) :
    ((mainRun env store sub).outcome = MainOutcome.serving →
      ∃ t, (mainRun env store sub).trace
            = t ++ [MainEvent.consumerDone, MainEvent.serveHTTP] ∧
        MainEvent.serveHTTP ∉ t ∧ MainEvent.consumerDone ∉ t) ∧
    ((mainRun env store sub).outcome ≠ MainOutcome.serving →
      MainEvent.serveHTTP ∉ (mainRun env store sub).trace) := by
  cases hout : (checkPayments env store).outcome with
  | exited =>
      refine ⟨fun h => ?_, fun _ => ?_⟩
      · simp [mainRun, hout] at h
      · simp only [mainRun, hout]
        exact serveHTTP_not_mem_log_map _
  | panicked =>
      refine ⟨fun h => ?_, fun _ => ?_⟩
      · simp [mainRun, hout] at h
      · simp only [mainRun, hout]
        exact serveHTTP_not_mem_log_map _
  | ok =>
      refine ⟨fun _ => ?_, fun h => ?_⟩
      · simp only [mainRun, hout]
        refine ⟨(checkPayments env store).trace.map MainEvent.log
            ++ MainEvent.consumerStart
              :: (watchInvoices env (checkPayments env store).store sub).2.map MainEvent.log,
          by simp, by simp, by simp⟩
      · simp [mainRun, hout] at h

/-- C5 witness: a concrete run — one settled event, then the stream goes
quiet — whose trace ends with the consumer finishing before the HTTP front
end serves. -/
theorem c5_witness :
    ∃ t, (mainRun envW [docW] (Except.ok [RecvResult.ev "pr1" true])).trace
          = t ++ [MainEvent.consumerDone, MainEvent.serveHTTP] ∧
      MainEvent.serveHTTP ∉ t ∧ MainEvent.consumerDone ∉ t :=
  (c5_front_end_serves_only_after_consumer_done envW [docW]
    (Except.ok [RecvResult.ev "pr1" true])).1 (by decide)

theorem setField_setField (l : List (String × FieldVal)) (k : String) (v v' : FieldVal) :
    setField (setField l k v) k v' = setField l k v' := by
  induction l with
  | nil => simp [setField]
  | cons p rest ih =>
      rcases p with ⟨k', w⟩
      by_cases hk : k' = k
      · simp [setField, hk]
      · simp [setField, hk, ih]

theorem getData_setField_self (l : List (String × FieldVal)) (k : String) (v : FieldVal) :
    getData (setField l k v) k = some v := by
  induction l with
  | nil => simp [setField, getData]
  | cons p rest ih =>
      rcases p with ⟨k', w⟩
      by_cases hk : k' = k
      · simp [setField, hk, getData]
      · simp [setField, hk, getData, ih]

theorem getData_setField_ne (l : List (String × FieldVal)) (k : String) (v : FieldVal)
    (k' : String) (hne : k' ≠ k) :
    getData (setField l k v) k' = getData l k' := by
  induction l with
  | nil => simp [setField, getData, Ne.symm hne]
  | cons p rest ih =>
      rcases p with ⟨k2, w⟩
      by_cases hk : k2 = k
      · subst hk
        simp [setField, getData, Ne.symm hne]
      · simp only [setField, if_neg hk]
        by_cases hk2 : k2 = k'
        · simp [getData, hk2]
        · simp [getData, hk2, ih]

theorem markDoc_id (d : Doc) : (markDoc d).id = d.id := rfl

theorem markDoc_markDoc (d : Doc) : markDoc (markDoc d) = markDoc d := by
  simp [markDoc, setField_setField]

theorem getField_markDoc_invoice (d : Doc) :
    getField (markDoc d) "invoice" = getField d "invoice" :=
  getData_setField_ne d.data "settled" (FieldVal.boolVal true) "invoice" (by decide)

theorem getField_markDoc_settled (d : Doc) :
    getField (markDoc d) "settled" = some (FieldVal.boolVal true) :=
  getData_setField_self d.data "settled" (FieldVal.boolVal true)

theorem setSettled_map_id (st : List Doc) (j : Nat) :
    (setSettled st j).map Doc.id = st.map Doc.id := by
  unfold setSettled
  rw [List.map_map]
  apply List.map_congr_left
  intro a _
  by_cases h : a.id = j <;> simp [Function.comp, h, markDoc_id]

theorem scanStep_map_id (env : Env) (st : List Doc) (s : Doc) :
    (scanStep env st s).1.map Doc.id = st.map Doc.id := by
  rcases scanStep_store_cases env st s with h | h <;> rw [h]
  exact setSettled_map_id st s.id

theorem scanLoop_map_id (env : Env) (docs : List Doc) :
    ∀ st : List Doc, (scanLoop env st docs).store.map Doc.id = st.map Doc.id := by
  induction docs with
  | nil => intro st; rfl
  | cons s rest ih =>
      intro st
      have hstep := scanStep_map_id env st s
      rw [scanLoop_cons]
      rcases h : scanStep env st s with ⟨st', t, b⟩
      rw [h] at hstep
      cases b
      · simpa [ih st'] using hstep
      · simpa using hstep

theorem applyUpdates_map_id (env : Env) (ms : List Doc) :
    ∀ st : List Doc, (applyUpdates env ms st).map Doc.id = st.map Doc.id := by
  induction ms with
  | nil => intro st; rfl
  | cons m rest ih =>
      intro st
      show (applyUpdates env rest _).map Doc.id = st.map Doc.id
      cases h : env.updateFails m.id with
      | some e => simp only [h]; exact ih st
      | none => simp only [h]; rw [ih (setSettled st m.id), setSettled_map_id]

theorem consumeLoop_map_id (env : Env) (evs : List RecvResult) :
    ∀ st : List Doc, (consumeLoop env st evs).1.map Doc.id = st.map Doc.id := by
  induction evs with
  | nil => intro st; rfl
  | cons e rest ih =>
      intro st
      cases e with
      | eof => rfl
      | errRecv er => rfl
      | ev pr sett =>
          cases sett with
          | false => exact ih st
          | true =>
              by_cases hff : env.findFails pr
              · simp only [consumeLoop, hff, if_true]
                exact ih st
              · simp [consumeLoop, hff]
                rw [ih, applyUpdates_map_id]

theorem checkPayments_map_id (env : Env) (st : List Doc) :
    (checkPayments env st).store.map Doc.id = st.map Doc.id := by
  unfold checkPayments
  cases env.listFails with
  | some e => rfl
  | none => exact scanLoop_map_id env (st.filter isUnsettled) st

theorem watchInvoices_map_id (env : Env) (st : List Doc)
    (sub : Except String (List RecvResult)) :
    (watchInvoices env st sub).1.map Doc.id = st.map Doc.id := by
  unfold watchInvoices
  cases sub with
  | error e => rfl
  | ok evs => exact consumeLoop_map_id env evs st

theorem applyOp_map_id (st : List Doc) (op : Op) :
    (applyOp st op).map Doc.id = st.map Doc.id := by
  cases op with
  | scan env => exact checkPayments_map_id env st
  | consume env sub => exact watchInvoices_map_id env st sub

theorem nodup_get?_inj {α : Type} {l : List α} (h : l.Nodup) :
    ∀ {i j : Nat} {a : α}, l.get? i = some a → l.get? j = some a → i = j := by
  induction l with
  | nil => intro i j a hi _; simp at hi
  | cons x xs ih =>
      intro i j a hi hj
      rcases List.nodup_cons.mp h with ⟨hx, hnd⟩
      cases i with
      | zero =>
          cases j with
          | zero => rfl
          | succ j' =>
              simp at hi
              have : a ∈ xs := List.get?_mem hj
              rw [← hi] at this
              exact absurd this hx
      | succ i' =>
          cases j with
          | zero =>
              simp at hj
              have : a ∈ xs := List.get?_mem hi
              rw [← hj] at this
              exact absurd this hx
          | succ j' =>
              have := ih hnd (i := i') (j := j') hi hj
              omega

theorem nodupIds_unique {st : List Doc} (hN : NodupIds st) {i : Nat} {d : Doc}
    (hi : st.get? i = some d) {s : Doc} (hs : s ∈ st) (hid : s.id = d.id) :
    s = d := by
  obtain ⟨j, hj⟩ := List.get?_of_mem hs
  have hmi : (st.map Doc.id).get? i = some d.id := by
    rw [List.get?_map, hi]; rfl
  have hmj : (st.map Doc.id).get? j = some d.id := by
    rw [List.get?_map, hj, ← hid]; rfl
  have hij : j = i := nodup_get?_inj hN hmj hmi
  rw [hij] at hj
  rw [hi] at hj
  exact (Option.some.inj hj).symm

theorem evolvesTo_refl (R : String → Prop) (d : Doc) : EvolvesTo R d d :=
  Or.inl rfl

theorem evolvesTo_id {R : String → Prop} {d d' : Doc} (h : EvolvesTo R d d') :
    d'.id = d.id := by
  rcases h with rfl | ⟨rfl, _⟩
  · rfl
  · rfl

theorem evolvesTo_invoice {R : String → Prop} {d d' : Doc} (h : EvolvesTo R d d') :
    getField d' "invoice" = getField d "invoice" := by
  rcases h with rfl | ⟨rfl, _⟩
  · rfl
  · exact getField_markDoc_invoice d

theorem evolvesTo_settled {R : String → Prop} {d d' : Doc} (h : EvolvesTo R d d')
    (hs : getField d "settled" = some (FieldVal.boolVal true)) :
    getField d' "settled" = some (FieldVal.boolVal true) := by
  rcases h with rfl | ⟨rfl, _⟩
  · exact hs
  · exact getField_markDoc_settled d

theorem evolvesTo_mark {R : String → Prop} {d d' : Doc} (h : EvolvesTo R d d')
    (hev : ∃ inv, getField d' "invoice" = some (FieldVal.str inv) ∧ R inv) :
    EvolvesTo R d (markDoc d') := by
  rcases h with rfl | ⟨rfl, hev0⟩
  · exact Or.inr ⟨rfl, hev⟩
  · rw [markDoc_markDoc]
    exact Or.inr ⟨rfl, hev0⟩

theorem evolvesTo_mono {R1 R2 : String → Prop} (hR : ∀ x, R1 x → R2 x)
    {d d' : Doc} (h : EvolvesTo R1 d d') : EvolvesTo R2 d d' := by
  rcases h with rfl | ⟨rfl, inv, hi, hr⟩
  · exact Or.inl rfl
  · exact Or.inr ⟨rfl, inv, hi, hR inv hr⟩

theorem evolvesTo_trans {R1 R2 : String → Prop} {d d'' d' : Doc}
    (h1 : EvolvesTo R1 d d'') (h2 : EvolvesTo R2 d'' d') :
    EvolvesTo (fun x => R1 x ∨ R2 x) d d' := by
  rcases h1 with rfl | ⟨rfl, inv, hi, hr⟩
  · exact evolvesTo_mono (fun x => Or.inr) h2
  · rcases h2 with rfl | ⟨rfl, inv2, hi2, hr2⟩
    · exact Or.inr ⟨rfl, inv, hi, Or.inl hr⟩
    · rw [markDoc_markDoc]
      exact Or.inr ⟨rfl, inv, hi, Or.inl hr⟩

theorem pointwiseEvolves_refl (R : String → Prop) (st : List Doc) :
    PointwiseEvolves R st st :=
  fun _ d h => ⟨d, h, Or.inl rfl⟩

theorem pointwiseEvolves_mono {R1 R2 : String → Prop} (hR : ∀ x, R1 x → R2 x)
    {st0 st : List Doc} (h : PointwiseEvolves R1 st0 st) :
    PointwiseEvolves R2 st0 st := by
  intro i d hd
  obtain ⟨d', hd', he⟩ := h i d hd
  exact ⟨d', hd', evolvesTo_mono hR he⟩

theorem pointwiseEvolves_trans {R1 R2 : String → Prop} {st0 st1 st2 : List Doc}
    (h1 : PointwiseEvolves R1 st0 st1) (h2 : PointwiseEvolves R2 st1 st2) :
    PointwiseEvolves (fun x => R1 x ∨ R2 x) st0 st2 := by
  intro i d hd
  obtain ⟨d1, hd1, he1⟩ := h1 i d hd
  obtain ⟨d2, hd2, he2⟩ := h2 i d1 hd1
  exact ⟨d2, hd2, evolvesTo_trans he1 he2⟩

theorem pointwiseEvolves_setSettled_of_mem0 {R : String → Prop} {st0 st : List Doc}
    (hN : NodupIds st0) (hpw : PointwiseEvolves R st0 st)
    {s : Doc} (hs : s ∈ st0)
    (hsinv : ∃ inv, getField s "invoice" = some (FieldVal.str inv) ∧ R inv) :
    PointwiseEvolves R st0 (setSettled st s.id) := by
  intro i d hd
  obtain ⟨d', hd', he⟩ := hpw i d hd
  by_cases hc : d'.id = s.id
  · have hsd : s = d := by
      apply nodupIds_unique hN hd hs
      rw [← hc, evolvesTo_id he]
    refine ⟨markDoc d', ?_, ?_⟩
    · rw [setSettled_get?, hd']
      simp [hc]
    · apply evolvesTo_mark he
      obtain ⟨inv, hi, hr⟩ := hsinv
      refine ⟨inv, ?_, hr⟩
      rw [evolvesTo_invoice he, ← hsd]
      exact hi
  · refine ⟨d', ?_, he⟩
    rw [setSettled_get?, hd']
    simp [hc]

theorem pointwiseEvolves_setSettled_of_mem {R : String → Prop} {st0 st : List Doc}
    (hN : NodupIds st0) (hids : st.map Doc.id = st0.map Doc.id)
    (hpw : PointwiseEvolves R st0 st)
    {m : Doc} (hm : m ∈ st)
    (hminv : ∃ inv, getField m "invoice" = some (FieldVal.str inv) ∧ R inv) :
    PointwiseEvolves R st0 (setSettled st m.id) := by
  obtain ⟨j, hj⟩ := List.get?_of_mem hm
  have hjlt : j < st.length := (List.get?_eq_some.mp hj).1
  have hlen : st0.length = st.length := by
    have h1 := congrArg List.length hids
    simpa using h1.symm
  obtain ⟨d0, hd0⟩ : ∃ d0, st0.get? j = some d0 := by
    cases hg : st0.get? j with
    | none => rw [List.get?_eq_none] at hg; omega
    | some x => exact ⟨x, rfl⟩
  obtain ⟨m', hm', hem⟩ := hpw j d0 hd0
  have hmm : m' = m := by rw [hj] at hm'; exact (Option.some.inj hm').symm
  rw [hmm] at hem
  have hid0 : m.id = d0.id := evolvesTo_id hem
  rw [hid0]
  apply pointwiseEvolves_setSettled_of_mem0 hN hpw (List.get?_mem hd0)
  obtain ⟨inv, hi, hr⟩ := hminv
  refine ⟨inv, ?_, hr⟩
  rw [← evolvesTo_invoice hem]
  exact hi

theorem scanStep_cases (env : Env) (st : List Doc) (s : Doc) :
    (scanStep env st s).1 = st ∨
    ((scanStep env st s).1 = setSettled st s.id ∧
      ∃ inv, getField s "invoice" = some (FieldVal.str inv) ∧ scanReported env inv) := by
  unfold scanStep
  cases hf : getField s "invoice" with
  | none => simp
  | some fv =>
      cases fv with
      | boolVal b => simp
      | str inv =>
          cases hdec : env.decodePayReq inv with
          | error e => simp [hdec]
          | ok ph =>
              cases hlook : env.lookupInvoice ph with
              | error e => simp [hdec, hlook]
              | ok sett =>
                  cases sett with
                  | false => simp [hdec, hlook]
                  | true =>
                      cases hup : env.updateFails s.id with
                      | some e => simp [hdec, hlook, hup]
                      | none =>
                          right
                          refine ⟨?_, inv, rfl, ph, hdec, hlook⟩
                          simp [hdec, hlook, hup]

theorem scanLoop_pointwise (env : Env) (docs : List Doc) :
    ∀ st0 st : List Doc, (∀ s ∈ docs, s ∈ st0) → NodupIds st0 →
      st.map Doc.id = st0.map Doc.id →
      PointwiseEvolves (scanReported env) st0 st →
      PointwiseEvolves (scanReported env) st0 (scanLoop env st docs).store := by
  induction docs with
  | nil =>
      intro st0 st _ _ _ hpw
      exact hpw
  | cons s rest ih =>
      intro st0 st hsub hN hids hpw
      have hsmem : s ∈ st0 := hsub s (List.mem_cons_self s rest)
      have hrest : ∀ x ∈ rest, x ∈ st0 := fun x hx => hsub x (List.mem_cons_of_mem s hx)
      have hcases := scanStep_cases env st s
      have hstids := scanStep_map_id env st s
      rw [scanLoop_cons]
      rcases hstep : scanStep env st s with ⟨st', t, b⟩
      rw [hstep] at hcases hstids
      simp only at hcases hstids
      have hpw' : PointwiseEvolves (scanReported env) st0 st' := by
        rcases hcases with h1 | ⟨h1, inv, hfinv, hrep⟩
        · rw [h1]; exact hpw
        · rw [h1]
          exact pointwiseEvolves_setSettled_of_mem0 hN hpw hsmem ⟨inv, hfinv, hrep⟩
      have hids' : st'.map Doc.id = st0.map Doc.id := by rw [hstids]; exact hids
      cases b
      · exact ih st0 st' hrest hN hids' hpw'
      · exact hpw'

theorem take_one_cases {α : Type} (l : List α) :
    l.take 1 = [] ∨ ∃ x, l.take 1 = [x] ∧ l.head? = some x := by
  cases l <;> simp

theorem mem_of_head? {α : Type} {l : List α} {a : α} (h : l.head? = some a) :
    a ∈ l := by
  cases l with
  | nil => simp at h
  | cons x xs =>
      simp at h
      subst h
      exact List.mem_cons_self x xs

theorem matchesInvoice_eq {pr : String} {d : Doc} (h : matchesInvoice pr d = true) :
    getField d "invoice" = some (FieldVal.str pr) := by
  unfold matchesInvoice at h
  cases hf : getField d "invoice" with
  | none => rw [hf] at h; simp at h
  | some fv =>
      cases fv with
      | boolVal b => rw [hf] at h; simp at h
      | str s =>
          rw [hf] at h
          simp at h
          rw [h]

theorem consumeLoop_pointwise (env : Env) (evs : List RecvResult) (R : String → Prop) :
    (∀ inv, RecvResult.ev inv true ∈ evs → R inv) →
    ∀ st0 st : List Doc, NodupIds st0 →
      st.map Doc.id = st0.map Doc.id →
      PointwiseEvolves R st0 st →
      PointwiseEvolves R st0 (consumeLoop env st evs).1 := by
  induction evs with
  | nil =>
      intro _ st0 st _ _ hpw
      exact hpw
  | cons e rest ih =>
      intro hR st0 st hN hids hpw
      have hRrest : ∀ inv, RecvResult.ev inv true ∈ rest → R inv :=
        fun inv h => hR inv (List.mem_cons_of_mem e h)
      cases e with
      | eof => exact hpw
      | errRecv er => exact hpw
      | ev pr sett =>
          cases sett with
          | false => exact ih hRrest st0 st hN hids hpw
          | true =>
              by_cases hff : env.findFails pr
              · have hred : (consumeLoop env st (RecvResult.ev pr true :: rest)).1
                    = (consumeLoop env st rest).1 := by
                  simp [consumeLoop, hff]
                rw [hred]
                exact ih hRrest st0 st hN hids hpw
              · have hred : (consumeLoop env st (RecvResult.ev pr true :: rest)).1
                    = (consumeLoop env
                        (applyUpdates env ((st.filter (matchesInvoice pr)).take 1) st)
                        rest).1 := by
                  simp [consumeLoop, hff]
                rw [hred]
                rcases take_one_cases (st.filter (matchesInvoice pr)) with ht | ⟨m, ht, hhd⟩
                · rw [ht]
                  exact ih hRrest st0 st hN hids hpw
                · rw [ht]
                  have hmf : m ∈ st.filter (matchesInvoice pr) := mem_of_head? hhd
                  have hmst : m ∈ st := List.mem_of_mem_filter hmf
                  have hminv : getField m "invoice" = some (FieldVal.str pr) :=
                    matchesInvoice_eq (List.of_mem_filter hmf)
                  have hRpr : R pr := hR pr (List.mem_cons_self _ _)
                  cases hup : env.updateFails m.id with
                  | some e2 =>
                      have happ : applyUpdates env [m] st = st := by
                        simp [applyUpdates, hup]
                      rw [happ]
                      exact ih hRrest st0 st hN hids hpw
                  | none =>
                      have happ : applyUpdates env [m] st = setSettled st m.id := by
                        simp [applyUpdates, hup]
                      rw [happ]
                      have hpw' : PointwiseEvolves R st0 (setSettled st m.id) :=
                        pointwiseEvolves_setSettled_of_mem hN hids hpw hmst
                          ⟨pr, hminv, hRpr⟩
                      have hids' : (setSettled st m.id).map Doc.id = st0.map Doc.id := by
                        rw [setSettled_map_id]; exact hids
                      exact ih hRrest st0 (setSettled st m.id) hN hids' hpw'

theorem applyOp_pointwise (op : Op) (st : List Doc) (hN : NodupIds st) :
    PointwiseEvolves (opReported op) st (applyOp st op) := by
  cases op with
  | scan env =>
      show PointwiseEvolves (scanReported env) st (checkPayments env st).store
      unfold checkPayments
      cases env.listFails with
      | some e => exact pointwiseEvolves_refl _ _
      | none =>
          exact scanLoop_pointwise env (st.filter isUnsettled) st st
            (fun s hs => List.mem_of_mem_filter hs) hN rfl
            (pointwiseEvolves_refl _ _)
  | consume env sub =>
      show PointwiseEvolves (streamReported sub) st (watchInvoices env st sub).1
      unfold watchInvoices
      cases sub with
      | error e => exact pointwiseEvolves_refl _ _
      | ok evs =>
          exact consumeLoop_pointwise env evs (streamReported (Except.ok evs))
            (fun inv h => ⟨evs, rfl, h⟩) st st hN rfl
            (pointwiseEvolves_refl _ _)

theorem runOps_map_id (ops : List Op) :
    ∀ st : List Doc, (runOps st ops).map Doc.id = st.map Doc.id := by
  induction ops with
  | nil => intro st; rfl
  | cons op rest ih =>
      intro st
      show (runOps (applyOp st op) rest).map Doc.id = st.map Doc.id
      rw [ih, applyOp_map_id]

theorem runOps_pointwise (ops : List Op) :
    ∀ st : List Doc, NodupIds st →
      PointwiseEvolves (opsReported ops) st (runOps st ops) := by
  induction ops with
  | nil =>
      intro st _
      exact pointwiseEvolves_refl _ _
  | cons op rest ih =>
      intro st hN
      have h1 : PointwiseEvolves (opReported op) st (applyOp st op) :=
        applyOp_pointwise op st hN
      have hN1 : NodupIds (applyOp st op) := by
        unfold NodupIds
        rw [applyOp_map_id]
        exact hN
      have h2 := ih (applyOp st op) hN1
      have h3 := pointwiseEvolves_trans h1 h2
      show PointwiseEvolves (opsReported (op :: rest)) st (runOps (applyOp st op) rest)
      apply pointwiseEvolves_mono ?_ h3
      intro x hx
      rcases hx with hx | ⟨op2, hop2, hrep⟩
      · exact ⟨op, List.mem_cons_self _ _, hx⟩
      · exact ⟨op2, List.mem_cons_of_mem _ hop2, hrep⟩

/-- C1: under any sequence of scanner passes and stream-consumer runs,
each document of a store with distinct references either is untouched or
has received exactly the mark-settled write, and the write happens only
when the ledger reported the document's invoice settled (by decode-and-
lookup in a scanner pass, or by a settled event on the subscription
stream); the `settled` flag is never written `false`, and once `true` it
never reverts. -/
theorem c1_settled_monotone_and_ledger_confirmed (ops : List Op) (st : List Doc)
    (i : Nat) (d d' : Doc)
    (hN : NodupIds st)
    (hd : st.get? i = some d)
    (hd' : (runOps st ops).get? i = some d') :
    (d' = d ∨ (d' = markDoc d ∧
      ∃ inv, getField d "invoice" = some (FieldVal.str inv) ∧ opsReported ops inv)) ∧
    (getField d "settled" = some (FieldVal.boolVal true) →
      getField d' "settled" = some (FieldVal.boolVal true)) := by
  obtain ⟨d'', hd'', he⟩ := runOps_pointwise ops st hN i d hd
  have hdd : d'' = d' := by
    rw [hd'] at hd''
    exact (Option.some.inj hd'').symm
  rw [hdd] at he
  exact ⟨he, fun hs => evolvesTo_settled he hs⟩

/-- C1 witness: one scanner pass against a ledger that reports `pr1`
settled marks the single record and the theorem's disjunction holds with
the ledger's confirmation as evidence. -/
theorem c1_witness :
    (markDoc docW = docW ∨ (markDoc docW = markDoc docW ∧
      ∃ inv, getField docW "invoice" = some (FieldVal.str inv) ∧
        opsReported [Op.scan envW] inv)) ∧
    (getField docW "settled" = some (FieldVal.boolVal true) →
      getField (markDoc docW) "settled" = some (FieldVal.boolVal true)) :=
  c1_settled_monotone_and_ledger_confirmed [Op.scan envW] [docW] 0 docW (markDoc docW)
    (by unfold NodupIds; decide) rfl (by decide)

end ChatBackend
